import Mathlib

/-!
# glyphcheck: the homoglyph scan of `main.go`

A shallow embedding of `scanFile`, `isHomoglyph`, `init`, `listFiles` and `main`
of `main.go`, with the standard-library pieces they call (`go/scanner`,
`go/token`, `fmt`, `log`) modelled at the level of their documented contract.

* A rune is a `Char`: `go/scanner` refuses input that is not valid UTF-8, so
  every rune that `range lit` yields is a Unicode scalar value.
* The package-level variable `homoglyphs` is passed explicitly; `init` is the
  value the program gives it at start-up.
* `log.Fatal*` ends the process: it is the error of `Except Exit`.
-/

namespace Glyphcheck

set_option autoImplicit false

/-! ## Library types -/

/-- The constant utf8.RuneSelf: runes below it are single bytes (ASCII). -/
def RuneSelf : Nat := 0x80

/-- The type go/token.Token, by its groups: the special tokens, the literal classes, and one
entry each for the operators and the keywords (the scan loop compares with EOF only). -/
inductive Token
  | ILLEGAL | EOF | COMMENT
  | IDENT | INT | FLOAT | IMAG | CHAR | STRING
  | OPERATOR | KEYWORD
  deriving DecidableEq

/-- A token.Pos together with what the file set resolves it to: the byte offset in the file,
the file name of the line directive (`//line` or `/*line*/`) in effect there, if one is, and
the line and column the file set reports. Without a directive these are the 1-based line and
column in the text; under a directive the line is the adjusted one and the column is 0 when
the directive leaves it unknown. -/
structure Pos where
  offset : Nat
  directive : Option String
  line : Nat
  column : Nat
  deriving DecidableEq

/-- The type go/token.Position. -/
structure Position where
  Filename : String
  Offset : Nat
  Line : Nat
  Column : Nat
  deriving DecidableEq

/-- The method Position.IsValid: a position is valid when its line is positive. -/
def Position.IsValid (pos : Position) : Bool := decide (pos.Line > 0)

/-- The function strconv.Itoa on a non-negative number. -/
def Itoa (n : Nat) : String := Nat.repr n

/-- The method Position.String, which the verb %v calls: `file:line:column`, `line:column`
when there is no file name, `file` or `-` when the position is not valid. -/
def Position.String (pos : Position) : String :=
  let s := pos.Filename
  let s :=
    if pos.IsValid then
      let s := if s != "" then s ++ ":" else s
      let s := s ++ Itoa pos.Line
      if pos.Column != 0 then s ++ ":" ++ Itoa pos.Column else s
    else s
  if s == "" then "-" else s

/-- A token.File as far as the scan uses it: the name it was registered under, its base and
its size. The file set of scanFile holds this one file. -/
structure File where
  name : String
  base : Nat
  size : Nat
  deriving DecidableEq

/-- The method FileSet.Position for a Pos of this file: the file name is the registered name
of the file, or that of the line directive in effect at the Pos; offset, line and column are
those the Pos resolves to. -/
def File.Position (f : File) (p : Pos) : Position :=
  { Filename :=
      match p.directive with
      | none => f.name
      | some name => name
    Offset := p.offset, Line := p.line, Column := p.column }

/-- How a process ends: the exit status and what was written to standard error. -/
structure Exit where
  status : Nat
  stderr : String
  deriving DecidableEq

/-- The output step of package log with flags 0: the text, with a newline appended when it
does not end in one. -/
def logOutput (s : String) : String :=
  if s.data.getLast? = some '\n' then s else s ++ "\n"

/-- The call log.Fatal(v) and log.Fatalf(...) on the formatted text v: write it, exit with 1. -/
def logFatal (v : String) : Exit := { status := 1, stderr := logOutput v }

/-- The call log.Fatalln(v): Sprintln puts a newline after v; write it, exit with 1. -/
def logFatalln (v : String) : Exit := { status := 1, stderr := logOutput (v ++ "\n") }

/-! ## The tokenizer -/

/-- One step of the lexical analysis of a source text: a token with its position, class and
literal text, or an error that go/scanner reports to its error handler. The scanner returns
EOF at the end of the input only, so no token of the text has that class. -/
inductive Lexeme
  | token (pos : Pos) (tok : Token) (lit : String) (h : tok ≠ Token.EOF)
  | error (pos : Pos) (msg : String)

/-- The type scanner.Mode, a bit set. -/
abbrev Mode := Nat

/-- The mode bit scanner.ScanComments: return comments as COMMENT tokens. -/
def ScanComments : Mode := 1

/-- The type scanner.ErrorHandler; a handler that ends the process throws. -/
abbrev ErrorHandler := Position → String → Except Exit Unit

/-- Modelled from the spec: the state of a go/scanner.Scanner (standard library), which per
section 4.2 turns the file bytes into an ordered sequence of tokens, includes comment tokens
only when asked to, and reports text it cannot tokenize. The state is the file, the lexemes
of the source not yet consumed, the error handler and the mode. -/
structure Scanner where
  file : File
  pending : List Lexeme
  err : ErrorHandler
  mode : Mode

/-- The method Scanner.Init. The argument lexemes is the lexical analysis of src. -/
def Scanner.Init (file : File) (lexemes : List Lexeme) (err : ErrorHandler) (mode : Mode) :
    Scanner :=
  { file := file, pending := lexemes, err := err, mode := mode }

/-- Modelled from the spec: the work of Scanner.Scan on the pending lexemes. An error is
reported to the handler and scanning goes on if the handler returns; a comment is skipped
unless the mode has ScanComments; any other token is returned; at the end of the input the
result is EOF. -/
def Scanner.scanFrom (file : File) (err : ErrorHandler) (mode : Mode) :
    List Lexeme → Except Exit ((Pos × Token × String) × List Lexeme)
  | [] => .ok ((⟨file.size, none, 0, 0⟩, Token.EOF, ""), [])
  | Lexeme.error p msg :: rest =>
    match err (file.Position p) msg with
    | .error e => .error e
    | .ok () => Scanner.scanFrom file err mode rest
  | Lexeme.token p tok lit _ :: rest =>
    if tok = Token.COMMENT ∧ mode &&& ScanComments = 0 then
      Scanner.scanFrom file err mode rest
    else .ok ((p, tok, lit), rest)

/-- The method Scanner.Scan: the next token and the scanner after it. -/
def Scanner.Scan (s : Scanner) : Except Exit ((Pos × Token × String) × Scanner) :=
  match Scanner.scanFrom s.file s.err s.mode s.pending with
  | .error e => .error e
  | .ok (r, rest) => .ok (r, { s with pending := rest })

/-! ## Formatting -/

/-- The digits of the verb %X: upper-case hexadecimal. -/
def upperHex (n : Nat) : List Char := (Nat.toDigits 16 n).map Char.toUpper

/-- The verb %U, same as "U+%04X": at least four hexadecimal digits. -/
def fmtU (c : Char) : String :=
  let ds := upperHex c.toNat
  "U+" ++ String.mk (List.replicate (4 - ds.length) '0' ++ ds)

/-- The verb %#U: the %U form, followed by the quoted character if the rune is printable.
The argument IsPrint is strconv.IsPrint, a table of the standard library. -/
def fmtSharpU (IsPrint : Char → Bool) (c : Char) : String :=
  if IsPrint c then fmtU c ++ " '" ++ String.singleton c ++ "'" else fmtU c

/-- The call fmt.Sprintf("%s:%v: %s (%#U)", file, position, lit, c) of scanFile. -/
def sprintfDiagnostic (IsPrint : Char → Bool) (file : String) (position : Position)
    (lit : String) (c : Char) : String :=
  file ++ ":" ++ position.String ++ ": " ++ lit ++ " (" ++ fmtSharpU IsPrint c ++ ")"

/-- The call fmt.Sprintf("%v:%v: %v", pos.Filename, pos.Line, msg) of the error handler. -/
def sprintfScanError (pos : Position) (msg : String) : String :=
  pos.Filename ++ ":" ++ Itoa pos.Line ++ ": " ++ msg

/-! ## The confusable table -/

/-- The raw string literal that init ranges over. -/
def table : String :=
  "ᅟᅠ         　ㅤǃ！״″＂＄％＆＇﹝（﹞）⁎＊＋‚，‐𐆑－٠۔܁܂․‧。．｡⁄∕╱⫻⫽／ﾉΟοОоՕ𐒆ＯｏΟοОоՕ𐒆Ｏｏا１２３４５６𐒇７Ց８９։܃܄∶꞉：;；‹＜𐆐＝›＞？＠［＼］＾＿｀ÀÁÂÃÄÅàáâãäåɑΑαаᎪＡａßʙΒβВЬᏴᛒＢｂϲϹСсᏟⅭⅽ𐒨ＣｃĎďĐđԁժᎠⅮⅾＤｄÈÉÊËéêëĒēĔĕĖėĘĚěΕЕеᎬＥｅϜＦｆɡɢԌնᏀＧｇʜΗНһᎻＨｈɩΙІіاᎥᛁⅠⅰ𐒃ＩｉϳЈјյᎫＪｊΚκКᏦᛕKＫｋʟιاᏞⅬⅼＬｌΜϺМᎷᛖⅯⅿＭｍɴΝＮｎΟοОоՕ𐒆ＯｏΟοОоՕ𐒆ＯｏΡρРрᏢＰｐႭႳＱｑʀԻᏒᚱＲｒЅѕՏႽᏚ𐒖ＳｓΤτТᎢＴｔμυԱՍ⋃ＵｕνѴѵᏙⅤⅴＶｖѡᎳＷｗΧχХхⅩⅹＸｘʏΥγуҮＹｙΖᏃＺｚ｛ǀا｜｝⁓～ӧӒӦ"

/-- The key set of the map homoglyphs, of type map[rune]struct{}. -/
abbrev HomoglyphMap := List Char

/-- The function init: every rune of the table becomes a key of the map. -/
def init : HomoglyphMap :=
  table.data.foldl (fun homoglyphs r => r :: homoglyphs) []

/-- The function isHomoglyph: whether r is a key of the map. -/
def isHomoglyph (homoglyphs : HomoglyphMap) (r : Char) : Bool :=
  homoglyphs.contains r

/-! ## The scan -/

/-- The world outside the program: the file system behind ioutil.ReadFile (the content of a
file, or the text of the read error), the lexical analysis that go/scanner makes of a source
text, the table strconv.IsPrint of the runes that Go counts printable, and the package
resolution behind gotool.ImportPaths, build.Import (the directory and the Go files of a
package, or the text of the error) and filepath.Join. -/
structure Env where
  ReadFile : String → Except String (List UInt8)
  lex : List UInt8 → List Lexeme
  IsPrint : Char → Bool
  ImportPaths : List String → List String
  Import : String → Except String (String × List String)
  Join : String → String → String

/-- The error handler that scanFile gives to the scanner: exit if the file cannot be
scanned. -/
def scanError : ErrorHandler :=
  fun pos msg => .error (logFatal (sprintfScanError pos msg))

/-- The inner loop of scanFile over the runes of lit: the first rune that is at least
RuneSelf and a homoglyph appends one line, and the loop breaks. -/
def scanRunes (env : Env) (homoglyphs : HomoglyphMap) (file : String) (fset : File) (pos : Pos)
    (lit : String) : List Char → List String → List String
  | [], lines => lines
  | c :: cs, lines =>
    if c.toNat ≥ RuneSelf && isHomoglyph homoglyphs c then
      lines ++ [sprintfDiagnostic env.IsPrint file (fset.Position pos) lit c]
    else scanRunes env homoglyphs file fset pos lit cs lines

/-- Every token that Scan returns before EOF consumes at least one pending lexeme. -/
theorem Scanner.scanFrom_length (file : File) (err : ErrorHandler) (mode : Mode) :
    ∀ (l : List Lexeme) (p : Pos) (tok : Token) (lit : String) (rest : List Lexeme),
      Scanner.scanFrom file err mode l = .ok ((p, tok, lit), rest) → tok ≠ Token.EOF →
      rest.length < l.length
  | [], p, tok, lit, rest, h, hne => by
    simp only [Scanner.scanFrom, Except.ok.injEq, Prod.mk.injEq] at h
    exact absurd h.1.2.1.symm hne
  | Lexeme.error q msg :: l, p, tok, lit, rest, h, hne => by
    simp only [Scanner.scanFrom] at h
    split at h
    · cases h
    · have := Scanner.scanFrom_length file err mode l p tok lit rest h hne
      simp only [List.length_cons]; omega
  | Lexeme.token q t lt ht :: l, p, tok, lit, rest, h, hne => by
    simp only [Scanner.scanFrom] at h
    split at h
    · have := Scanner.scanFrom_length file err mode l p tok lit rest h hne
      simp only [List.length_cons]; omega
    · simp only [Except.ok.injEq, Prod.mk.injEq] at h
      rw [← h.2]; simp

/-- The same for Scan itself. -/
theorem Scanner.Scan_length (s s' : Scanner) (p : Pos) (tok : Token) (lit : String)
    (h : s.Scan = .ok ((p, tok, lit), s')) (hne : tok ≠ Token.EOF) :
    s'.pending.length < s.pending.length := by
  unfold Scanner.Scan at h
  split at h
  · cases h
  · rename_i r rest heq
    simp only [Except.ok.injEq, Prod.mk.injEq] at h
    obtain ⟨h1, h2⟩ := h
    subst h1 h2
    exact Scanner.scanFrom_length _ _ _ _ p tok lit rest heq hne

/-- The loop of scanFile: scan the next token; at EOF return the lines; otherwise run the
inner loop over the literal and go on. A fatal error of the scanner ends the process. -/
def scanLoop (env : Env) (homoglyphs : HomoglyphMap) (file : String) (fset : File) (s : Scanner)
    (lines : List String) : Except Exit (List String) :=
  match h : s.Scan with
  | .error e => .error e
  | .ok ((pos, tok, lit), s') =>
    if ht : tok = Token.EOF then .ok lines
    else scanLoop env homoglyphs file fset s' (scanRunes env homoglyphs file fset pos lit lit.data lines)
termination_by s.pending.length
decreasing_by exact Scanner.Scan_length s s' pos tok lit h ht

/-- The function scanFile: read the file, set the scanner up on it, registered under the
empty name, with ScanComments if asked, and collect a line for every token with a
homoglyph. -/
def scanFile (env : Env) (homoglyphs : HomoglyphMap) (file : String) (scanComments : Bool) :
    Except Exit (List String) :=
  match env.ReadFile file with
  | .error err => .error (logFatal err)
  | .ok src =>
    let tokFile : File := { name := "", base := 1, size := src.length }
    let scanMode : Mode := if scanComments then ScanComments else 0
    let s := Scanner.Init tokFile (env.lex src) scanError scanMode
    scanLoop env homoglyphs file tokFile s []

/-- The loop of listFiles over the import paths: the Go files of each package, joined to its
directory; an import that fails ends the process. -/
def listPackages (env : Env) : List String → List String → Except Exit (List String)
  | [], files => .ok files
  | path :: paths, files =>
    match env.Import path with
    | .error err => .error (logFatal err)
    | .ok (dir, goFiles) =>
      listPackages env paths (files ++ goFiles.map (fun file => env.Join dir file))

/-- The function strings.HasSuffix. -/
def HasSuffix (s suffix : String) : Bool := suffix.data.isSuffixOf s.data

/-- The function listFiles: the arguments themselves when the first one ends in .go, the Go
files of the packages they name otherwise. -/
def listFiles (env : Env) (args : List String) : Except Exit (List String) :=
  match args with
  | arg :: _ =>
    if HasSuffix arg ".go" then .ok args else listPackages env (env.ImportPaths args) []
  | [] => listPackages env (env.ImportPaths args) []

/-- The loop of main over the files: append the lines of each file. -/
def scanFiles (env : Env) (homoglyphs : HomoglyphMap) (scanComments : Bool) :
    List String → List String → Except Exit (List String)
  | [], lines => .ok lines
  | file :: files, lines =>
    match scanFile env homoglyphs file scanComments with
    | .error e => .error e
    | .ok found => scanFiles env homoglyphs scanComments files (lines ++ found)

/-- The function main after flag parsing: list the files, scan them, and if there are lines
write them joined by newlines and exit with failure; otherwise return, which exits with 0
and writes nothing. -/
def main (env : Env) (homoglyphs : HomoglyphMap) (args : List String) (scanComments : Bool) :
    Exit :=
  match listFiles env args with
  | .error e => e
  | .ok files =>
    match scanFiles env homoglyphs scanComments files [] with
    | .error e => e
    | .ok lines =>
      if lines.length > 0 then logFatalln ("\n".intercalate lines)
      else { status := 0, stderr := "" }

/-! ## Vocabulary of the statements -/

/-- The tokens of a lexical analysis that Scan returns in the given mode, in order: all of
them with ScanComments, all but the comments without. -/
def tokens (mode : Mode) : List Lexeme → List (Pos × Token × String)
  | [] => []
  | Lexeme.error _ _ :: rest => tokens mode rest
  | Lexeme.token p tok lit _ :: rest =>
    if tok = Token.COMMENT ∧ mode &&& ScanComments = 0 then tokens mode rest
    else (p, tok, lit) :: tokens mode rest

/-- The first error of a lexical analysis, if it has one. -/
def firstError : List Lexeme → Option (Pos × String)
  | [] => none
  | Lexeme.error p msg :: _ => some (p, msg)
  | Lexeme.token _ _ _ _ :: rest => firstError rest

/-- The mode that scanFile sets for the flag scanComments. -/
def modeOf (scanComments : Bool) : Mode := if scanComments then ScanComments else 0

/-- The file that scanFile registers in its file set for a source text. -/
def tokFileOf (src : List UInt8) : File := { name := "", base := 1, size := src.length }

/-- A rune is flagged when it is at least RuneSelf and a key of the map. -/
def Flagged (homoglyphs : HomoglyphMap) (c : Char) : Prop :=
  RuneSelf ≤ c.toNat ∧ c ∈ homoglyphs

instance (homoglyphs : HomoglyphMap) (c : Char) : Decidable (Flagged homoglyphs c) :=
  inferInstanceAs (Decidable (RuneSelf ≤ c.toNat ∧ c ∈ homoglyphs))

/-- The first flagged rune of a literal, in the order of the text. -/
def firstFlagged (homoglyphs : HomoglyphMap) (lit : String) : Option Char :=
  lit.data.find? (fun c => decide (RuneSelf ≤ c.toNat) && homoglyphs.contains c)

/-- The line reported for a token: none when its literal has no flagged rune, the formatted
line for its first flagged rune otherwise. -/
def diagnostic (env : Env) (homoglyphs : HomoglyphMap) (file : String) (fset : File)
    (t : Pos × Token × String) : Option String :=
  (firstFlagged homoglyphs t.2.2).map (sprintfDiagnostic env.IsPrint file (fset.Position t.1) t.2.2)

/-- The inner loop of scanFile, with the condition isHomoglyph(c) alone. -/
def scanRunesUnguarded (env : Env) (homoglyphs : HomoglyphMap) (file : String) (fset : File) (pos : Pos)
    (lit : String) : List Char → List String → List String
  | [], lines => lines
  | c :: cs, lines =>
    if isHomoglyph homoglyphs c then
      lines ++ [sprintfDiagnostic env.IsPrint file (fset.Position pos) lit c]
    else scanRunesUnguarded env homoglyphs file fset pos lit cs lines

/-- The loop of scanFile over the unguarded inner loop. -/
def scanLoopUnguarded (env : Env) (homoglyphs : HomoglyphMap) (file : String) (fset : File) (s : Scanner)
    (lines : List String) : Except Exit (List String) :=
  match h : s.Scan with
  | .error e => .error e
  | .ok ((pos, tok, lit), s') =>
    if ht : tok = Token.EOF then .ok lines
    else scanLoopUnguarded env homoglyphs file fset s'
      (scanRunesUnguarded env homoglyphs file fset pos lit lit.data lines)
termination_by s.pending.length
decreasing_by exact Scanner.Scan_length s s' pos tok lit h ht

/-- The function scanFile over the unguarded loop. -/
def scanFileUnguarded (env : Env) (homoglyphs : HomoglyphMap) (file : String)
    (scanComments : Bool) : Except Exit (List String) :=
  match env.ReadFile file with
  | .error err => .error (logFatal err)
  | .ok src =>
    let tokFile : File := { name := "", base := 1, size := src.length }
    let scanMode : Mode := if scanComments then ScanComments else 0
    let s := Scanner.Init tokFile (env.lex src) scanError scanMode
    scanLoopUnguarded env homoglyphs file tokFile s []

/-! ## A small world for the concrete checks

Ten files, each with the lexical analysis go/scanner makes of its bytes. An identifier or
a literal at the end of the text is followed by the automatic semicolon, whose literal is
a newline. Columns count bytes. -/

/-- The text `x=1`. -/
def asciiSrc : List UInt8 := [0x78, 0x3D, 0x31]

/-- The text `vаlue`, whose second letter is the Cyrillic U+0430. -/
def codeSrc : List UInt8 := [0x76, 0xD0, 0xB0, 0x6C, 0x75, 0x65]

/-- The text `x//а`: an identifier and a comment that holds U+0430. -/
def commentSrc : List UInt8 := [0x78, 0x2F, 0x2F, 0xD0, 0xB0]

/-- The text `аο`: an identifier of Cyrillic U+0430 and Greek U+03BF. -/
def twoSrc : List UInt8 := [0xD0, 0xB0, 0xCE, 0xBF]

/-- A string literal that holds the ideographic space U+3000. -/
def spaceSrc : List UInt8 := [0x22, 0xE3, 0x80, 0x80, 0x22]

/-- A comment that holds the control character U+007F. -/
def delSrc : List UInt8 := [0x2F, 0x2F, 0x7F]

/-- The text `x#`: the second character is not one of the language. -/
def badSrc : List UInt8 := [0x78, 0x23]

/-- The line directive `//line bar.go:7`, and on the next line the text `vаlue`. -/
def lineSrc : List UInt8 :=
  [0x2F, 0x2F, 0x6C, 0x69, 0x6E, 0x65, 0x20, 0x62, 0x61, 0x72, 0x2E, 0x67, 0x6F, 0x3A, 0x37,
   0x0A, 0x76, 0xD0, 0xB0, 0x6C, 0x75, 0x65]

/-- A string literal that holds the control character U+007F and then U+0430. -/
def mixedSrc : List UInt8 := [0x22, 0x7F, 0xD0, 0xB0, 0x22]

/-- The line directive `//line bar.go:7`, and on the next line the text `x#`. -/
def badLineSrc : List UInt8 :=
  [0x2F, 0x2F, 0x6C, 0x69, 0x6E, 0x65, 0x20, 0x62, 0x61, 0x72, 0x2E, 0x67, 0x6F, 0x3A, 0x37,
   0x0A, 0x78, 0x23]

/-- The printable test of the small world: strconv.IsPrint on ASCII, on Latin-1 and on the
runes of the confusable table, of which the ten space characters U+2000..U+2008 and U+3000
are the ones that Go does not count printable. Every rune of the files of the small world is
one of these; the value on other runes is not used. -/
def demoIsPrint (r : Char) : Bool :=
  let n := r.toNat
  if n < 0x20 then false
  else if 0x7F ≤ n ∧ n ≤ 0xA0 then false
  else if n = 0xAD then false
  else if 0x2000 ≤ n ∧ n ≤ 0x200A then false
  else if n = 0x3000 then false
  else true

/-- The file system of the small world. -/
def demoRead (file : String) : Except String (List UInt8) :=
  if file = "ascii.go" then .ok asciiSrc
  else if file = "code.go" then .ok codeSrc
  else if file = "comment.go" then .ok commentSrc
  else if file = "two.go" then .ok twoSrc
  else if file = "space.go" then .ok spaceSrc
  else if file = "del.go" then .ok delSrc
  else if file = "bad.go" then .ok badSrc
  else if file = "line.go" then .ok lineSrc
  else if file = "mixed.go" then .ok mixedSrc
  else if file = "badline.go" then .ok badLineSrc
  else .error ("open " ++ file ++ ": no such file or directory")

/-- The lexical analysis of the texts of the small world. -/
def demoLex (src : List UInt8) : List Lexeme :=
  if src = asciiSrc then
    [Lexeme.token ⟨0, none, 1, 1⟩ Token.IDENT "x" (by decide),
     Lexeme.token ⟨1, none, 1, 2⟩ Token.OPERATOR "" (by decide),
     Lexeme.token ⟨2, none, 1, 3⟩ Token.INT "1" (by decide),
     Lexeme.token ⟨3, none, 1, 4⟩ Token.OPERATOR "\n" (by decide)]
  else if src = codeSrc then
    [Lexeme.token ⟨0, none, 1, 1⟩ Token.IDENT "vаlue" (by decide),
     Lexeme.token ⟨6, none, 1, 7⟩ Token.OPERATOR "\n" (by decide)]
  else if src = commentSrc then
    [Lexeme.token ⟨0, none, 1, 1⟩ Token.IDENT "x" (by decide),
     Lexeme.token ⟨1, none, 1, 2⟩ Token.OPERATOR "\n" (by decide),
     Lexeme.token ⟨1, none, 1, 2⟩ Token.COMMENT "//а" (by decide)]
  else if src = twoSrc then
    [Lexeme.token ⟨0, none, 1, 1⟩ Token.IDENT "аο" (by decide),
     Lexeme.token ⟨4, none, 1, 5⟩ Token.OPERATOR "\n" (by decide)]
  else if src = spaceSrc then
    [Lexeme.token ⟨0, none, 1, 1⟩ Token.STRING "\"\u3000\"" (by decide),
     Lexeme.token ⟨5, none, 1, 6⟩ Token.OPERATOR "\n" (by decide)]
  else if src = delSrc then
    [Lexeme.token ⟨0, none, 1, 1⟩ Token.COMMENT "//\x7f" (by decide)]
  else if src = badSrc then
    [Lexeme.token ⟨0, none, 1, 1⟩ Token.IDENT "x" (by decide),
     Lexeme.error ⟨1, none, 1, 2⟩ "illegal character U+0023 '#'",
     Lexeme.token ⟨1, none, 1, 2⟩ Token.ILLEGAL "#" (by decide),
     Lexeme.token ⟨2, none, 1, 3⟩ Token.OPERATOR "\n" (by decide)]
  else if src = lineSrc then
    [Lexeme.token ⟨0, none, 1, 1⟩ Token.COMMENT "//line bar.go:7" (by decide),
     Lexeme.token ⟨16, some "bar.go", 7, 0⟩ Token.IDENT "vаlue" (by decide),
     Lexeme.token ⟨22, some "bar.go", 7, 0⟩ Token.OPERATOR "\n" (by decide)]
  else if src = mixedSrc then
    [Lexeme.token ⟨0, none, 1, 1⟩ Token.STRING "\"\x7fа\"" (by decide),
     Lexeme.token ⟨5, none, 1, 6⟩ Token.OPERATOR "\n" (by decide)]
  else if src = badLineSrc then
    [Lexeme.token ⟨0, none, 1, 1⟩ Token.COMMENT "//line bar.go:7" (by decide),
     Lexeme.token ⟨16, some "bar.go", 7, 0⟩ Token.IDENT "x" (by decide),
     Lexeme.error ⟨17, some "bar.go", 7, 0⟩ "illegal character U+0023 '#'",
     Lexeme.token ⟨17, some "bar.go", 7, 0⟩ Token.ILLEGAL "#" (by decide),
     Lexeme.token ⟨18, some "bar.go", 7, 0⟩ Token.OPERATOR "\n" (by decide)]
  else []

/-- The small world: files are found by name, a package path is not. -/
def demoEnv : Env :=
  { ReadFile := demoRead
    lex := demoLex
    IsPrint := demoIsPrint
    ImportPaths := fun args => if args = [] then ["."] else args
    Import := fun path => .error ("cannot find package " ++ path)
    Join := fun dir file => dir ++ "/" ++ file }

/-! ## The scan loop in closed form -/

theorem scanRunes_eq (env : Env) (homoglyphs : HomoglyphMap) (file : String) (fset : File) (pos : Pos)
    (lit : String) (cs : List Char) (lines : List String) :
    scanRunes env homoglyphs file fset pos lit cs lines =
      lines ++ ((cs.find? (fun c => decide (RuneSelf ≤ c.toNat) && homoglyphs.contains c)).map
        (sprintfDiagnostic env.IsPrint file (fset.Position pos) lit)).toList := by
  induction cs with
  | nil => simp [scanRunes]
  | cons c cs ih =>
    unfold scanRunes
    simp only [List.find?_cons, isHomoglyph, ge_iff_le]
    cases hc : (decide (RuneSelf ≤ c.toNat) && homoglyphs.contains c)
    · simpa using ih
    · simp

theorem scanLoop_unfold (env : Env) (homoglyphs : HomoglyphMap) (file : String) (fset : File)
    (s : Scanner) (lines : List String) :
    scanLoop env homoglyphs file fset s lines =
      match s.Scan with
      | .error e => .error e
      | .ok ((pos, tok, lit), s') =>
        if tok = Token.EOF then .ok lines
        else scanLoop env homoglyphs file fset s'
          (scanRunes env homoglyphs file fset pos lit lit.data lines) := by
  rw [scanLoop]
  split <;> rename_i h <;> simp [h]

theorem scanLoop_eq (env : Env) (homoglyphs : HomoglyphMap) (file : String) (fset f : File)
    (mode : Mode) : ∀ (l : List Lexeme) (lines : List String),
    scanLoop env homoglyphs file fset ⟨f, l, scanError, mode⟩ lines =
      match firstError l with
      | some (p, msg) => .error (logFatal (sprintfScanError (f.Position p) msg))
      | none => .ok (lines ++ (tokens mode l).filterMap (diagnostic env homoglyphs file fset))
  | [], lines => by
    rw [scanLoop_unfold]
    simp [Scanner.Scan, Scanner.scanFrom, firstError, tokens]
  | Lexeme.error p msg :: rest, lines => by
    rw [scanLoop_unfold]
    simp [Scanner.Scan, Scanner.scanFrom, firstError, scanError]
  | Lexeme.token p tok lit h :: rest, lines => by
    by_cases hskip : tok = Token.COMMENT ∧ mode &&& ScanComments = 0
    · have hS : Scanner.Scan ⟨f, Lexeme.token p tok lit h :: rest, scanError, mode⟩ =
          Scanner.Scan ⟨f, rest, scanError, mode⟩ := by
        simp only [Scanner.Scan, Scanner.scanFrom, hskip, and_self, if_true]
      rw [scanLoop_unfold, hS, ← scanLoop_unfold, scanLoop_eq env homoglyphs file fset f mode rest]
      simp only [firstError, tokens, hskip, and_self, if_true]
    · have hS : Scanner.Scan ⟨f, Lexeme.token p tok lit h :: rest, scanError, mode⟩ =
          .ok ((p, tok, lit), ⟨f, rest, scanError, mode⟩) := by
        simp only [Scanner.Scan, Scanner.scanFrom, hskip, if_false]
      rw [scanLoop_unfold, hS]
      simp only [h, if_false]
      rw [scanLoop_eq env homoglyphs file fset f mode rest, scanRunes_eq]
      simp only [firstError, tokens, hskip, if_false]
      cases firstError rest with
      | some e => rfl
      | none =>
        simp only [List.filterMap_cons, diagnostic, firstFlagged]
        cases List.find? (fun c => decide (RuneSelf ≤ c.toNat) && homoglyphs.contains c)
          lit.data <;> simp

/-- The function scanFile in closed form: the read error if the file cannot be read, the
first scan error if the text has one, and otherwise the lines of the tokens, in order. -/
theorem scanFile_eq (env : Env) (homoglyphs : HomoglyphMap) (file : String)
    (scanComments : Bool) :
    scanFile env homoglyphs file scanComments =
      match env.ReadFile file with
      | .error err => .error (logFatal err)
      | .ok src =>
        match firstError (env.lex src) with
        | some (p, msg) => .error (logFatal (sprintfScanError ((tokFileOf src).Position p) msg))
        | none => .ok ((tokens (modeOf scanComments) (env.lex src)).filterMap
            (diagnostic env homoglyphs file (tokFileOf src))) := by
  unfold scanFile
  cases env.ReadFile file with
  | error err => rfl
  | ok src =>
    simp only [Scanner.Init]
    rw [scanLoop_eq]
    simp only [tokFileOf, modeOf, List.nil_append]

/-! ## Facts about the vocabulary -/

theorem flagged_iff (homoglyphs : HomoglyphMap) (c : Char) :
    (decide (RuneSelf ≤ c.toNat) && homoglyphs.contains c) = true ↔ Flagged homoglyphs c := by
  simp [Flagged]

theorem mem_tokens (mode : Mode) (p : Pos) (tok : Token) (lit : String) :
    ∀ l : List Lexeme, (p, tok, lit) ∈ tokens mode l ↔
      (∃ h, Lexeme.token p tok lit h ∈ l) ∧ ¬ (tok = Token.COMMENT ∧ mode &&& ScanComments = 0)
  | [] => by simp [tokens]
  | Lexeme.error q msg :: rest => by
    simp only [tokens, mem_tokens mode p tok lit rest, List.mem_cons]
    simp
  | Lexeme.token q t lt ht :: rest => by
    by_cases hskip : t = Token.COMMENT ∧ mode &&& ScanComments = 0
    · rw [tokens, if_pos hskip, mem_tokens mode p tok lit rest]
      constructor
      · rintro ⟨⟨h, hm⟩, hn⟩
        exact ⟨⟨h, List.mem_cons_of_mem _ hm⟩, hn⟩
      · rintro ⟨⟨h, hm⟩, hn⟩
        rcases List.mem_cons.1 hm with heq | hm
        · simp only [Lexeme.token.injEq] at heq
          obtain ⟨rfl, rfl, rfl⟩ := heq
          exact absurd hskip hn
        · exact ⟨⟨h, hm⟩, hn⟩
    · rw [tokens, if_neg hskip, List.mem_cons, mem_tokens mode p tok lit rest]
      constructor
      · rintro (heq | ⟨⟨h, hm⟩, hn⟩)
        · simp only [Prod.mk.injEq] at heq
          obtain ⟨rfl, rfl, rfl⟩ := heq
          exact ⟨⟨ht, List.mem_cons_self _ _⟩, hskip⟩
        · exact ⟨⟨h, List.mem_cons_of_mem _ hm⟩, hn⟩
      · rintro ⟨⟨h, hm⟩, hn⟩
        rcases List.mem_cons.1 hm with heq | hm
        · simp only [Lexeme.token.injEq] at heq
          obtain ⟨rfl, rfl, rfl⟩ := heq
          exact Or.inl rfl
        · exact Or.inr ⟨⟨h, hm⟩, hn⟩

theorem mode_scanComments : ¬ (modeOf true &&& ScanComments = 0) := by decide

theorem mode_noComments : modeOf false &&& ScanComments = 0 := by decide

theorem firstFlagged_eq_none (homoglyphs : HomoglyphMap) (lit : String) :
    firstFlagged homoglyphs lit = none ↔ ∀ c ∈ lit.data, ¬ Flagged homoglyphs c := by
  simp only [firstFlagged, List.find?_eq_none, flagged_iff]

theorem firstFlagged_eq_some (homoglyphs : HomoglyphMap) (lit : String) (c : Char) :
    firstFlagged homoglyphs lit = some c ↔
      ∃ before after, lit.data = before ++ c :: after ∧
        (∀ x ∈ before, ¬ Flagged homoglyphs x) ∧ Flagged homoglyphs c := by
  simp only [firstFlagged, List.find?_eq_some, flagged_iff]
  constructor
  · rintro ⟨hc, as, bs, hl, hn⟩
    refine ⟨as, bs, hl, fun x hx hf => ?_, hc⟩
    have := hn x hx
    rw [(flagged_iff homoglyphs x).2 hf] at this
    exact absurd this (by decide)
  · rintro ⟨as, bs, hl, hn, hc⟩
    refine ⟨hc, as, bs, hl, fun x hx => ?_⟩
    cases h : (decide (RuneSelf ≤ x.toNat) && homoglyphs.contains x)
    · rfl
    · exact absurd ((flagged_iff homoglyphs x).1 h) (hn x hx)

theorem firstFlagged_of_mem (homoglyphs : HomoglyphMap) (lit : String) (c : Char)
    (hc : c ∈ lit.data) (hf : Flagged homoglyphs c) :
    ∃ c', firstFlagged homoglyphs lit = some c' := by
  cases h : firstFlagged homoglyphs lit with
  | some c' => exact ⟨c', rfl⟩
  | none => exact absurd hf ((firstFlagged_eq_none homoglyphs lit).1 h c hc)

theorem diagnostic_eq_none (env : Env) (homoglyphs : HomoglyphMap) (file : String) (fset : File)
    (t : Pos × Token × String) :
    diagnostic env homoglyphs file fset t = none ↔ ∀ c ∈ t.2.2.data, ¬ Flagged homoglyphs c := by
  simp only [diagnostic, Option.map_eq_none', firstFlagged_eq_none]

theorem diagnostic_eq_some (env : Env) (homoglyphs : HomoglyphMap) (file : String) (fset : File)
    (t : Pos × Token × String) (line : String) :
    diagnostic env homoglyphs file fset t = some line ↔
      ∃ c, firstFlagged homoglyphs t.2.2 = some c ∧
        line = sprintfDiagnostic env.IsPrint file (fset.Position t.1) t.2.2 c := by
  simp only [diagnostic, Option.map_eq_some']
  constructor
  · rintro ⟨c, hc, rfl⟩; exact ⟨c, hc, rfl⟩
  · rintro ⟨c, hc, rfl⟩; exact ⟨c, hc, rfl⟩

/-- What scanFile returns for a file that is read and has no scan error. -/
theorem scanFile_ok (env : Env) (homoglyphs : HomoglyphMap) (file : String)
    (scanComments : Bool) (src : List UInt8) (hread : env.ReadFile file = .ok src)
    (herr : firstError (env.lex src) = none) :
    scanFile env homoglyphs file scanComments =
      .ok ((tokens (modeOf scanComments) (env.lex src)).filterMap
        (diagnostic env homoglyphs file (tokFileOf src))) := by
  rw [scanFile_eq, hread]
  simp only [herr]

/-- A delivered token with a flagged rune puts its line into the result. -/
theorem scanFile_reports (env : Env) (homoglyphs : HomoglyphMap) (file : String)
    (scanComments : Bool) (src : List UInt8) (hread : env.ReadFile file = .ok src)
    (herr : firstError (env.lex src) = none) (p : Pos) (tok : Token) (lit : String)
    (ht : (p, tok, lit) ∈ tokens (modeOf scanComments) (env.lex src)) (c : Char)
    (hc : c ∈ lit.data) (hf : Flagged homoglyphs c) :
    ∃ lines c', scanFile env homoglyphs file scanComments = .ok lines ∧
      firstFlagged homoglyphs lit = some c' ∧
      sprintfDiagnostic env.IsPrint file ((tokFileOf src).Position p) lit c' ∈ lines := by
  obtain ⟨c', hc'⟩ := firstFlagged_of_mem homoglyphs lit c hc hf
  refine ⟨_, c', scanFile_ok env homoglyphs file scanComments src hread herr, hc', ?_⟩
  rw [List.mem_filterMap]
  exact ⟨(p, tok, lit), ht, (diagnostic_eq_some _ _ _ _ _ _).2 ⟨c', hc', rfl⟩⟩

/-- Without a flagged rune in any delivered token the result is empty. -/
theorem scanFile_clean (env : Env) (homoglyphs : HomoglyphMap) (file : String)
    (scanComments : Bool) (src : List UInt8) (hread : env.ReadFile file = .ok src)
    (herr : firstError (env.lex src) = none)
    (hno : ∀ t ∈ tokens (modeOf scanComments) (env.lex src),
      ∀ c ∈ t.2.2.data, ¬ Flagged homoglyphs c) :
    scanFile env homoglyphs file scanComments = .ok [] := by
  rw [scanFile_ok env homoglyphs file scanComments src hread herr]
  congr 1
  rw [List.filterMap_eq_nil_iff]
  intro t ht
  exact (diagnostic_eq_none _ _ _ _ _).2 (hno t ht)

/-- A property of every token of a lexical analysis, from its check on the list. -/
theorem forall_token_of_all (l : List Lexeme) (P : Pos → Token → String → Prop)
    [∀ p tok lit, Decidable (P p tok lit)]
    (hall : l.all (fun x =>
      match x with
      | Lexeme.token p tok lit _ => decide (P p tok lit)
      | Lexeme.error _ _ => true) = true) :
    ∀ p tok lit h, Lexeme.token p tok lit h ∈ l → P p tok lit := by
  intro p tok lit h hmem
  have := List.all_eq_true.1 hall _ hmem
  simpa using this

/-- A result of scanFile means that the file was read and its text has no scan error. -/
theorem scanFile_ok_inv (env : Env) (homoglyphs : HomoglyphMap) (file : String)
    (scanComments : Bool) (lines : List String)
    (hscan : scanFile env homoglyphs file scanComments = .ok lines) :
    ∃ src, env.ReadFile file = .ok src ∧ firstError (env.lex src) = none := by
  rw [scanFile_eq] at hscan
  cases hr : env.ReadFile file with
  | error err => rw [hr] at hscan; cases hscan
  | ok src =>
    rw [hr] at hscan
    simp only at hscan
    cases he : firstError (env.lex src) with
    | none => exact ⟨src, rfl, he⟩
    | some e => rw [he] at hscan; cases hscan

/-- The loop of main in closed form, when every file is scanned to a result. -/
theorem scanFiles_ok (env : Env) (homoglyphs : HomoglyphMap) (scanComments : Bool)
    (found : String → List String) :
    ∀ (files : List String) (lines : List String),
      (∀ file ∈ files, scanFile env homoglyphs file scanComments = .ok (found file)) →
      scanFiles env homoglyphs scanComments files lines =
        .ok (lines ++ (files.map found).flatten)
  | [], lines, _ => by simp [scanFiles]
  | file :: files, lines, hall => by
    have h1 := hall file (List.mem_cons_self _ _)
    have h2 := scanFiles_ok env homoglyphs scanComments found files (lines ++ found file)
      (fun f hf => hall f (List.mem_cons_of_mem _ hf))
    simp only [scanFiles, h1, h2, List.map_cons, List.flatten_cons, List.append_assoc]

/-- The loop of main stops at the first file whose scan is fatal. -/
theorem scanFiles_error (env : Env) (homoglyphs : HomoglyphMap) (scanComments : Bool)
    (file : String) (after : List String) (e : Exit)
    (hfail : scanFile env homoglyphs file scanComments = .error e) :
    ∀ (before : List String) (lines : List String),
      (∀ f ∈ before, ∃ found, scanFile env homoglyphs f scanComments = .ok found) →
      scanFiles env homoglyphs scanComments (before ++ file :: after) lines = .error e
  | [], lines, _ => by simp [scanFiles, hfail]
  | f :: before, lines, hbefore => by
    obtain ⟨found, hf⟩ := hbefore f (List.mem_cons_self _ _)
    have h2 := scanFiles_error env homoglyphs scanComments file after e hfail before
      (lines ++ found) (fun g hg => hbefore g (List.mem_cons_of_mem _ hg))
    rw [List.cons_append, scanFiles, hf]
    exact h2

/-- What log writes for a text that ends in a newline is the text. -/
theorem logOutput_newline (v : String) : logOutput (v ++ "\n") = v ++ "\n" := by
  have h : (v ++ "\n").data.getLast? = some '\n' := by
    rw [String.data_append]
    exact List.getLast?_concat _
  simp only [logOutput, h, if_true]

theorem scanRunesUnguarded_eq_scanRunes (env : Env) (homoglyphs : HomoglyphMap)
    (hguard : ∀ c ∈ homoglyphs, RuneSelf ≤ c.toNat) (file : String) (fset : File) (pos : Pos)
    (lit : String) (cs : List Char) (lines : List String) :
    scanRunesUnguarded env homoglyphs file fset pos lit cs lines =
      scanRunes env homoglyphs file fset pos lit cs lines := by
  induction cs with
  | nil => rfl
  | cons c cs ih =>
    unfold scanRunesUnguarded scanRunes
    by_cases hc : isHomoglyph homoglyphs c = true
    · have hge : decide (c.toNat ≥ RuneSelf) = true := by
        have : c ∈ homoglyphs := by simpa [isHomoglyph] using hc
        simpa using hguard c this
      simp only [hc, hge, Bool.and_self, if_true]
    · simp only [hc, Bool.and_false, Bool.false_eq_true, if_false, ih]

theorem scanLoopUnguarded_unfold (env : Env) (homoglyphs : HomoglyphMap) (file : String) (fset : File)
    (s : Scanner) (lines : List String) :
    scanLoopUnguarded env homoglyphs file fset s lines =
      match s.Scan with
      | .error e => .error e
      | .ok ((pos, tok, lit), s') =>
        if tok = Token.EOF then .ok lines
        else scanLoopUnguarded env homoglyphs file fset s'
          (scanRunesUnguarded env homoglyphs file fset pos lit lit.data lines) := by
  rw [scanLoopUnguarded]
  split <;> rename_i h <;> simp [h]

theorem scanLoopUnguarded_eq_scanLoop (env : Env) (homoglyphs : HomoglyphMap)
    (hguard : ∀ c ∈ homoglyphs, RuneSelf ≤ c.toNat) (file : String) (fset : File) :
    ∀ (n : Nat) (s : Scanner) (lines : List String), s.pending.length ≤ n →
      scanLoopUnguarded env homoglyphs file fset s lines = scanLoop env homoglyphs file fset s lines
  | n, s, lines, hn => by
    rw [scanLoopUnguarded_unfold, scanLoop_unfold]
    cases hS : s.Scan with
    | error e => rfl
    | ok r =>
      obtain ⟨⟨pos, tok, lit⟩, s'⟩ := r
      by_cases ht : tok = Token.EOF
      · simp only [ht, if_true]
      · simp only [ht, if_false]
        have hlt := Scanner.Scan_length s s' pos tok lit hS ht
        rw [scanRunesUnguarded_eq_scanRunes env homoglyphs hguard]
        match n, hn with
        | 0, hn => omega
        | n + 1, hn =>
          exact scanLoopUnguarded_eq_scanLoop env homoglyphs hguard file fset n s' _ (by omega)

theorem scanFileUnguarded_eq_scanFile (homoglyphs : HomoglyphMap)
    (hguard : ∀ c ∈ homoglyphs, RuneSelf ≤ c.toNat) (env : Env) (file : String)
    (scanComments : Bool) :
    scanFileUnguarded env homoglyphs file scanComments =
      scanFile env homoglyphs file scanComments := by
  unfold scanFileUnguarded scanFile
  cases env.ReadFile file with
  | error err => rfl
  | ok src => exact scanLoopUnguarded_eq_scanLoop env homoglyphs hguard file _ _ _ _ (le_refl _)

/-! ## The claims -/

/-- C1: when the file is read and tokenized and some token that is not a comment has, in its
literal text, a rune that is in the confusable table and is at least 0x80, scanFile returns
a list that is not empty, with scanComments false and with scanComments true. -/
theorem scanFile_code_homoglyph_nonempty (env : Env) (homoglyphs : HomoglyphMap)
    (file : String) (src : List UInt8) (hread : env.ReadFile file = .ok src)
    (herr : firstError (env.lex src) = none)
    (p : Pos) (tok : Token) (lit : String) (h : tok ≠ Token.EOF)
    (hmem : Lexeme.token p tok lit h ∈ env.lex src) (hcode : tok ≠ Token.COMMENT)
    (c : Char) (hc : c ∈ lit.data) (hin : c ∈ homoglyphs) (hge : c.toNat ≥ 0x80) :
    (∃ lines, scanFile env homoglyphs file false = .ok lines ∧ lines ≠ []) ∧
    (∃ lines, scanFile env homoglyphs file true = .ok lines ∧ lines ≠ []) := by
  have key : ∀ scanComments : Bool,
      ∃ lines, scanFile env homoglyphs file scanComments = .ok lines ∧ lines ≠ [] := by
    intro scanComments
    have ht : (p, tok, lit) ∈ tokens (modeOf scanComments) (env.lex src) :=
      (mem_tokens _ p tok lit _).2 ⟨⟨h, hmem⟩, fun hs => hcode hs.1⟩
    obtain ⟨lines, c', hs, -, hl⟩ := scanFile_reports env homoglyphs file scanComments src
      hread herr p tok lit ht c hc ⟨hge, hin⟩
    exact ⟨lines, hs, List.ne_nil_of_mem hl⟩
  exact ⟨key false, key true⟩


set_option maxRecDepth 100000 in
/-- C1 at the file code.go of the small world, whose identifier holds U+0430. -/
theorem scanFile_code_homoglyph_nonempty_witness :
    demoEnv.ReadFile "code.go" = .ok codeSrc ∧ firstError (demoEnv.lex codeSrc) = none ∧
    (∃ lines, scanFile demoEnv init "code.go" false = .ok lines ∧ lines ≠ []) ∧
    (∃ lines, scanFile demoEnv init "code.go" true = .ok lines ∧ lines ≠ []) :=
  ⟨rfl, rfl, scanFile_code_homoglyph_nonempty demoEnv init "code.go" codeSrc rfl rfl
    ⟨0, none, 1, 1⟩ Token.IDENT "vаlue" (by decide) (List.Mem.head _) (by decide)
    (Char.ofNat 0x430) (by decide) (by decide) (by decide)⟩

/-- C2: when the file is read and tokenized and the literal texts of its tokens hold only
runes below 0x80, scanFile returns the empty list, with scanComments false and with
scanComments true, whatever the confusable table holds. -/
theorem scanFile_ascii_empty (env : Env) (homoglyphs : HomoglyphMap) (file : String)
    (src : List UInt8) (hread : env.ReadFile file = .ok src)
    (herr : firstError (env.lex src) = none)
    (hascii : ∀ p tok lit h, Lexeme.token p tok lit h ∈ env.lex src →
      ∀ c ∈ lit.data, c.toNat < 0x80) :
    scanFile env homoglyphs file false = .ok [] ∧
    scanFile env homoglyphs file true = .ok [] := by
  have key : ∀ scanComments : Bool, scanFile env homoglyphs file scanComments = .ok [] := by
    intro scanComments
    apply scanFile_clean env homoglyphs file scanComments src hread herr
    rintro ⟨p, tok, lit⟩ ht c hc ⟨hge, -⟩
    obtain ⟨⟨h, hmem⟩, -⟩ := (mem_tokens _ p tok lit _).1 ht
    have := hascii p tok lit h hmem c hc
    unfold RuneSelf at hge
    omega
  exact ⟨key false, key true⟩


set_option maxRecDepth 100000 in
/-- C2 at the file ascii.go of the small world. -/
theorem scanFile_ascii_empty_witness :
    demoEnv.ReadFile "ascii.go" = .ok asciiSrc ∧ firstError (demoEnv.lex asciiSrc) = none ∧
    scanFile demoEnv init "ascii.go" false = .ok [] ∧
    scanFile demoEnv init "ascii.go" true = .ok [] :=
  ⟨rfl, rfl, scanFile_ascii_empty demoEnv init "ascii.go" asciiSrc rfl rfl
    (forall_token_of_all _ (fun _ _ lit => ∀ c ∈ lit.data, c.toNat < 0x80) (by decide))⟩

/-- C3: when the file is read and tokenized, no token other than a comment has a flagged
rune, and some comment has one, scanFile with scanComments false returns the empty list and
scanFile with scanComments true returns a list that is not empty. -/
theorem scanFile_comment_homoglyph (env : Env) (homoglyphs : HomoglyphMap) (file : String)
    (src : List UInt8) (hread : env.ReadFile file = .ok src)
    (herr : firstError (env.lex src) = none)
    (honly : ∀ p tok lit h, Lexeme.token p tok lit h ∈ env.lex src → tok ≠ Token.COMMENT →
      ∀ c ∈ lit.data, ¬ Flagged homoglyphs c)
    (p : Pos) (lit : String) (h : Token.COMMENT ≠ Token.EOF)
    (hmem : Lexeme.token p Token.COMMENT lit h ∈ env.lex src)
    (c : Char) (hc : c ∈ lit.data) (hf : Flagged homoglyphs c) :
    scanFile env homoglyphs file false = .ok [] ∧
    ∃ lines, scanFile env homoglyphs file true = .ok lines ∧ lines ≠ [] := by
  constructor
  · apply scanFile_clean env homoglyphs file false src hread herr
    rintro ⟨q, tok, lt⟩ ht
    obtain ⟨⟨h', hmem'⟩, hn⟩ := (mem_tokens _ q tok lt _).1 ht
    exact honly q tok lt h' hmem' (fun hcm => hn ⟨hcm, mode_noComments⟩)
  · have ht : (p, Token.COMMENT, lit) ∈ tokens (modeOf true) (env.lex src) :=
      (mem_tokens _ p _ lit _).2 ⟨⟨h, hmem⟩, fun hs => mode_scanComments hs.2⟩
    obtain ⟨lines, c', hs, -, hl⟩ := scanFile_reports env homoglyphs file true src
      hread herr p _ lit ht c hc hf
    exact ⟨lines, hs, List.ne_nil_of_mem hl⟩


set_option maxRecDepth 100000 in
/-- C3 at the file comment.go of the small world, whose comment holds U+0430. -/
theorem scanFile_comment_homoglyph_witness :
    demoEnv.ReadFile "comment.go" = .ok commentSrc ∧
    firstError (demoEnv.lex commentSrc) = none ∧
    scanFile demoEnv init "comment.go" false = .ok [] ∧
    ∃ lines, scanFile demoEnv init "comment.go" true = .ok lines ∧ lines ≠ [] :=
  ⟨rfl, rfl, scanFile_comment_homoglyph demoEnv init "comment.go" commentSrc rfl rfl
    (forall_token_of_all _
      (fun _ tok lit => tok ≠ Token.COMMENT → ∀ c ∈ lit.data, ¬ Flagged init c) (by decide))
    ⟨1, none, 1, 2⟩ "//а" (by decide) (List.Mem.tail _ (List.Mem.tail _ (List.Mem.head _)))
    (Char.ofNat 0x430) (by decide) (by decide)⟩

/-- C4: when the file is read and tokenized, the list scanFile returns is, over the tokens in
their order, the line of every token whose literal has a flagged rune and nothing for the
others: a token has a line exactly when its literal has at least one flagged rune, it has
one line however many flagged runes it holds, and the list is as long as the number of
tokens with a flagged rune. -/
theorem scanFile_one_line_per_flagged_token (env : Env) (homoglyphs : HomoglyphMap)
    (file : String) (scanComments : Bool) (src : List UInt8)
    (hread : env.ReadFile file = .ok src) (herr : firstError (env.lex src) = none) :
    scanFile env homoglyphs file scanComments =
      .ok ((tokens (modeOf scanComments) (env.lex src)).filterMap
        (diagnostic env homoglyphs file (tokFileOf src))) ∧
    (∀ t, (∃ line, diagnostic env homoglyphs file (tokFileOf src) t = some line) ↔
      ∃ c ∈ t.2.2.data, Flagged homoglyphs c) ∧
    (∀ t c₁ c₂, c₁ ∈ t.2.2.data → c₂ ∈ t.2.2.data → c₁ ≠ c₂ → Flagged homoglyphs c₁ →
      Flagged homoglyphs c₂ →
      ([t].filterMap (diagnostic env homoglyphs file (tokFileOf src))).length = 1) ∧
    ∀ lines, scanFile env homoglyphs file scanComments = .ok lines →
      lines.length = (tokens (modeOf scanComments) (env.lex src)).countP
        (fun t => t.2.2.data.any
          (fun c => decide (RuneSelf ≤ c.toNat) && homoglyphs.contains c)) := by
  have hsome : ∀ t, (∃ line, diagnostic env homoglyphs file (tokFileOf src) t = some line) ↔
      ∃ c ∈ t.2.2.data, Flagged homoglyphs c := by
    intro t
    constructor
    · rintro ⟨line, hl⟩
      obtain ⟨c, hc, -⟩ := (diagnostic_eq_some _ _ _ _ _ _).1 hl
      obtain ⟨before, after, hd, -, hf⟩ := (firstFlagged_eq_some _ _ _).1 hc
      exact ⟨c, by rw [hd]; simp, hf⟩
    · rintro ⟨c, hc, hf⟩
      obtain ⟨c', hc'⟩ := firstFlagged_of_mem homoglyphs t.2.2 c hc hf
      exact ⟨_, (diagnostic_eq_some _ _ _ _ _ _).2 ⟨c', hc', rfl⟩⟩
  refine ⟨scanFile_ok env homoglyphs file scanComments src hread herr, hsome, ?_, ?_⟩
  · intro t c₁ c₂ h₁ _ _ hf₁ _
    obtain ⟨line, hl⟩ := (hsome t).2 ⟨c₁, h₁, hf₁⟩
    rw [List.filterMap_cons, hl]
    rfl
  · intro lines hl
    rw [scanFile_ok env homoglyphs file scanComments src hread herr] at hl
    simp only [Except.ok.injEq] at hl
    rw [← hl, List.length_filterMap_eq_countP]
    congr 1
    funext t
    rw [Bool.eq_iff_iff]
    simp only [diagnostic, firstFlagged, Option.isSome_map', List.find?_isSome,
      List.any_eq_true]


set_option maxRecDepth 100000 in
/-- C4 at the file two.go of the small world: its identifier holds the two flagged runes
U+0430 and U+03BF, and the result is the one line that names the first. -/
theorem scanFile_one_line_per_flagged_token_witness :
    demoEnv.ReadFile "two.go" = .ok twoSrc ∧ firstError (demoEnv.lex twoSrc) = none ∧
    Flagged init (Char.ofNat 0x430) ∧ Flagged init (Char.ofNat 0x3BF) ∧
    scanFile demoEnv init "two.go" false = .ok ["two.go:1:1: аο (U+0430 'а')"] :=
  ⟨rfl, rfl, by decide, by decide,
    (scanFile_one_line_per_flagged_token demoEnv init "two.go" false twoSrc rfl rfl).1.trans
      rfl⟩

/-- C5: for every content of the confusable table, when the file is read and tokenized:
if every rune of the delivered tokens that is in the table is below 0x80 (0x7F for one),
scanFile returns the empty list; the runes of the table below 0x80 have no effect on the
result at all, which is the result for the table without them; every line of the result is
the line of a delivered token for a rune that is at least 0x80 and in the table, the first
such rune of its literal; and a delivered token whose literal holds a rune that is at least
0x80 and in the table has its line, which names such a rune of it, in the result. -/
theorem scanFile_threshold (env : Env) (homoglyphs : HomoglyphMap) (file : String)
    (scanComments : Bool) (src : List UInt8) (hread : env.ReadFile file = .ok src)
    (herr : firstError (env.lex src) = none) :
    ((∀ t ∈ tokens (modeOf scanComments) (env.lex src), ∀ c ∈ t.2.2.data,
        c ∈ homoglyphs → c.toNat < 0x80) →
      scanFile env homoglyphs file scanComments = .ok []) ∧
    scanFile env homoglyphs file scanComments =
      scanFile env (homoglyphs.filter (fun r => decide (r.toNat ≥ 0x80))) file scanComments ∧
    (∀ lines, scanFile env homoglyphs file scanComments = .ok lines → ∀ line ∈ lines,
      ∃ p tok lit before c after,
        (p, tok, lit) ∈ tokens (modeOf scanComments) (env.lex src) ∧
        lit.data = before ++ c :: after ∧
        (∀ x ∈ before, ¬ (x.toNat ≥ 0x80 ∧ x ∈ homoglyphs)) ∧
        c.toNat ≥ 0x80 ∧ c ∈ homoglyphs ∧
        line = sprintfDiagnostic env.IsPrint file ((tokFileOf src).Position p) lit c) ∧
    (∀ p tok lit, (p, tok, lit) ∈ tokens (modeOf scanComments) (env.lex src) →
      ∀ c ∈ lit.data, c.toNat ≥ 0x80 → c ∈ homoglyphs →
      ∃ lines c', scanFile env homoglyphs file scanComments = .ok lines ∧
        c' ∈ lit.data ∧ c'.toNat ≥ 0x80 ∧ c' ∈ homoglyphs ∧
        sprintfDiagnostic env.IsPrint file ((tokFileOf src).Position p) lit c' ∈ lines) := by
  refine ⟨?_, ?_, ?_, ?_⟩
  · intro hlow
    apply scanFile_clean env homoglyphs file scanComments src hread herr
    rintro t ht c hc ⟨hge, hin⟩
    have := hlow t ht c hc hin
    unfold RuneSelf at hge
    omega
  · have hff : ∀ lit, firstFlagged homoglyphs lit =
        firstFlagged (homoglyphs.filter (fun r => decide (r.toNat ≥ 0x80))) lit := by
      intro lit
      unfold firstFlagged
      congr 1
      funext c
      rw [Bool.eq_iff_iff, flagged_iff, flagged_iff]
      simp only [Flagged, List.mem_filter, decide_eq_true_eq, RuneSelf]
      constructor
      · rintro ⟨h1, h2⟩; exact ⟨h1, h2, h1⟩
      · rintro ⟨h1, h2, -⟩; exact ⟨h1, h2⟩
    rw [scanFile_ok env homoglyphs file scanComments src hread herr,
      scanFile_ok env _ file scanComments src hread herr]
    congr 2
    funext t
    simp only [diagnostic, hff]
  · intro lines hl line hline
    rw [scanFile_ok env homoglyphs file scanComments src hread herr] at hl
    simp only [Except.ok.injEq] at hl
    rw [← hl, List.mem_filterMap] at hline
    obtain ⟨⟨p, tok, lit⟩, ht, hd⟩ := hline
    obtain ⟨c, hc, rfl⟩ := (diagnostic_eq_some _ _ _ _ _ _).1 hd
    obtain ⟨before, after, hdata, hb, hf⟩ := (firstFlagged_eq_some _ _ _).1 hc
    exact ⟨p, tok, lit, before, c, after, ht, hdata, hb, hf.1, hf.2, rfl⟩
  · intro p tok lit ht c hc hge hin
    obtain ⟨lines, c', hs, hc', hl⟩ := scanFile_reports env homoglyphs file scanComments src
      hread herr p tok lit ht c hc ⟨hge, hin⟩
    obtain ⟨before, after, hdata, -, hf⟩ := (firstFlagged_eq_some _ _ _).1 hc'
    exact ⟨lines, c', hs, by rw [hdata]; simp, hf.1, hf.2, hl⟩

set_option maxRecDepth 100000 in
/-- C5 with U+007F and U+0430 in the table: the comment of del.go, which holds U+007F, gives
no line; the string literal of mixed.go, which holds U+007F and then U+0430, gives the line
that names U+0430; and the identifier of code.go, which holds U+0430, gives its line. -/
theorem scanFile_threshold_witness :
    scanFile demoEnv [Char.ofNat 0x7F, Char.ofNat 0x430] "del.go" true = .ok [] ∧
    scanFile demoEnv [Char.ofNat 0x7F, Char.ofNat 0x430] "mixed.go" true =
      .ok ["mixed.go:1:1: \"\x7fа\" (U+0430 'а')"] ∧
    ∃ lines c', scanFile demoEnv [Char.ofNat 0x7F, Char.ofNat 0x430] "code.go" true =
        .ok lines ∧
      c' ∈ "vаlue".data ∧ c'.toNat ≥ 0x80 ∧ c' ∈ [Char.ofNat 0x7F, Char.ofNat 0x430] ∧
      sprintfDiagnostic demoEnv.IsPrint "code.go"
        ((tokFileOf codeSrc).Position ⟨0, none, 1, 1⟩) "vаlue" c' ∈ lines :=
  ⟨(scanFile_threshold demoEnv [Char.ofNat 0x7F, Char.ofNat 0x430] "del.go" true delSrc
      rfl rfl).1 (by decide),
    (scanFile_threshold demoEnv [Char.ofNat 0x7F, Char.ofNat 0x430] "mixed.go" true mixedSrc
      rfl rfl).2.1.trans (by rw [scanFile_eq]; rfl),
    (scanFile_threshold demoEnv [Char.ofNat 0x7F, Char.ofNat 0x430] "code.go" true codeSrc
      rfl rfl).2.2.2 ⟨0, none, 1, 1⟩ Token.IDENT "vаlue" (List.Mem.head _) (Char.ofNat 0x430)
      (by decide) (by decide) (by decide)⟩

/-- C7: the lines scanFile returns are exactly the lines of the delivered tokens for their
first flagged rune: a line is in the result if and only if it is the formatted line of a
token whose literal splits into runes that are not flagged, then the rune the line names,
which is flagged, then any rest. The inner loop stops at that rune: whatever follows it in
the literal, the loop appends the one line that names it. And a delivered token with a
flagged rune that is its only rune outside ASCII has the line that names this rune. -/
theorem scanFile_names_first_flagged_rune (env : Env) (homoglyphs : HomoglyphMap)
    (file : String) (scanComments : Bool) (src : List UInt8) (lines : List String)
    (hread : env.ReadFile file = .ok src)
    (hscan : scanFile env homoglyphs file scanComments = .ok lines) :
    (∀ line, line ∈ lines ↔ ∃ p tok lit before c after,
      (p, tok, lit) ∈ tokens (modeOf scanComments) (env.lex src) ∧
      lit.data = before ++ c :: after ∧ (∀ x ∈ before, ¬ Flagged homoglyphs x) ∧
      Flagged homoglyphs c ∧
      line = sprintfDiagnostic env.IsPrint file ((tokFileOf src).Position p) lit c) ∧
    (∀ (fset : File) (pos : Pos) (lit : String) (before : List Char) (c : Char)
      (after : List Char) (acc : List String),
      (∀ x ∈ before, ¬ Flagged homoglyphs x) → Flagged homoglyphs c →
      scanRunes env homoglyphs file fset pos lit (before ++ c :: after) acc =
        acc ++ [sprintfDiagnostic env.IsPrint file (fset.Position pos) lit c]) ∧
    (∀ p tok lit c, (p, tok, lit) ∈ tokens (modeOf scanComments) (env.lex src) →
      c ∈ lit.data → Flagged homoglyphs c → (∀ x ∈ lit.data, x ≠ c → x.toNat < 0x80) →
      sprintfDiagnostic env.IsPrint file ((tokFileOf src).Position p) lit c ∈ lines) := by
  obtain ⟨src', hread', herr⟩ := scanFile_ok_inv env homoglyphs file scanComments lines hscan
  rw [hread] at hread'
  cases hread'
  rw [scanFile_ok env homoglyphs file scanComments src hread herr] at hscan
  simp only [Except.ok.injEq] at hscan
  refine ⟨?_, ?_, ?_⟩
  · intro line
    rw [← hscan, List.mem_filterMap]
    constructor
    · rintro ⟨⟨p, tok, lit⟩, ht, hd⟩
      obtain ⟨c, hc, rfl⟩ := (diagnostic_eq_some _ _ _ _ _ _).1 hd
      obtain ⟨before, after, hd, hb, hf⟩ := (firstFlagged_eq_some _ _ _).1 hc
      exact ⟨p, tok, lit, before, c, after, ht, hd, hb, hf, rfl⟩
    · rintro ⟨p, tok, lit, before, c, after, ht, hd, hb, hf, rfl⟩
      exact ⟨(p, tok, lit), ht, (diagnostic_eq_some _ _ _ _ _ _).2
        ⟨c, (firstFlagged_eq_some _ _ _).2 ⟨before, after, hd, hb, hf⟩, rfl⟩⟩
  · intro fset pos lit before c after acc hb hf
    have hfind : firstFlagged homoglyphs (String.mk (before ++ c :: after)) = some c :=
      (firstFlagged_eq_some _ _ _).2 ⟨before, after, rfl, hb, hf⟩
    rw [scanRunes_eq]
    simp only [firstFlagged] at hfind
    rw [hfind]
    rfl
  · intro p tok lit c ht hc hf honly
    obtain ⟨c', hc'⟩ := firstFlagged_of_mem homoglyphs lit c hc hf
    obtain ⟨before, after, hd, -, hf'⟩ := (firstFlagged_eq_some _ _ _).1 hc'
    have hmem : c' ∈ lit.data := by rw [hd]; simp
    have heq : c' = c := by
      by_contra hne
      have := honly c' hmem hne
      have hge := hf'.1
      unfold RuneSelf at hge
      omega
    subst heq
    rw [← hscan, List.mem_filterMap]
    exact ⟨(p, tok, lit), ht, (diagnostic_eq_some _ _ _ _ _ _).2 ⟨c', hc', rfl⟩⟩

set_option maxRecDepth 100000 in
/-- C7 at the file code.go of the small world: the identifier holds Cyrillic U+0430 as its
only rune outside ASCII, and the result is one line that names the identifier and U+0430. -/
theorem scanFile_names_first_flagged_rune_witness :
    scanFile demoEnv init "code.go" false = .ok ["code.go:1:1: vаlue (U+0430 'а')"] ∧
    (∀ c ∈ "vаlue".data, c ≠ Char.ofNat 0x430 → c.toNat < 0x80) ∧
    ∃ p tok lit before c after,
      (p, tok, lit) ∈ tokens (modeOf false) (demoEnv.lex codeSrc) ∧
      lit.data = before ++ c :: after ∧ (∀ x ∈ before, ¬ Flagged init x) ∧ Flagged init c ∧
      "code.go:1:1: vаlue (U+0430 'а')" =
        sprintfDiagnostic demoEnv.IsPrint "code.go" ((tokFileOf codeSrc).Position p) lit c :=
  ⟨by rw [scanFile_eq]; rfl, by decide,
    ((scanFile_names_first_flagged_rune demoEnv init "code.go" false codeSrc
      ["code.go:1:1: vаlue (U+0430 'а')"] rfl (by rw [scanFile_eq]; rfl)).1 _).1
      (List.Mem.head _)⟩

/-- C8: when the files are listed and every one of them is scanned to a result, main exits
with a status other than 0 if and only if the results of the files, concatenated in the
order of the files, are not empty; then it exits with 1 and writes these lines, joined by
newlines and ended by one; otherwise it exits with 0 and writes nothing. -/
theorem main_exit (env : Env) (homoglyphs : HomoglyphMap) (args : List String)
    (scanComments : Bool) (files : List String) (found : String → List String)
    (hlist : listFiles env args = .ok files)
    (hall : ∀ file ∈ files, scanFile env homoglyphs file scanComments = .ok (found file)) :
    ((main env homoglyphs args scanComments).status ≠ 0 ↔ (files.map found).flatten ≠ []) ∧
    ((files.map found).flatten ≠ [] →
      main env homoglyphs args scanComments =
        { status := 1, stderr := "\n".intercalate (files.map found).flatten ++ "\n" }) ∧
    ((files.map found).flatten = [] →
      main env homoglyphs args scanComments = { status := 0, stderr := "" }) := by
  have hm : main env homoglyphs args scanComments =
      if ((files.map found).flatten).length > 0 then
        logFatalln ("\n".intercalate (files.map found).flatten)
      else { status := 0, stderr := "" } := by
    unfold main
    rw [hlist]
    simp only [scanFiles_ok env homoglyphs scanComments found files [] hall, List.nil_append]
  have hpos : ∀ {xs : List String}, xs ≠ [] → xs.length > 0 := fun h =>
    List.length_pos.2 h
  refine ⟨?_, ?_, ?_⟩
  · by_cases hnil : (files.map found).flatten = []
    · rw [hm, hnil]
      simp
    · rw [hm, if_pos (hpos hnil)]
      simp [logFatalln, hnil]
  · intro hne
    rw [hm, if_pos (hpos hne), logFatalln, logOutput_newline]
  · intro hnil
    rw [hm, hnil]
    rfl

set_option maxRecDepth 100000 in
/-- C8 in the small world: three files with two lines in all, and one clean file. -/
theorem main_exit_witness :
    listFiles demoEnv ["code.go", "ascii.go", "two.go"] = .ok ["code.go", "ascii.go", "two.go"] ∧
    main demoEnv init ["code.go", "ascii.go", "two.go"] false =
      { status := 1,
        stderr := "code.go:1:1: vаlue (U+0430 'а')\ntwo.go:1:1: аο (U+0430 'а')\n" } ∧
    main demoEnv init ["ascii.go"] false = { status := 0, stderr := "" } :=
  ⟨rfl,
    ((main_exit demoEnv init ["code.go", "ascii.go", "two.go"] false
      ["code.go", "ascii.go", "two.go"]
      (fun file =>
        if file = "code.go" then ["code.go:1:1: vаlue (U+0430 'а')"]
        else if file = "two.go" then ["two.go:1:1: аο (U+0430 'а')"] else [])
      rfl
      (by
        intro file hfile
        simp only [List.mem_cons, List.mem_singleton, List.mem_nil_iff, or_false] at hfile
        rcases hfile with rfl | rfl | rfl <;> (rw [scanFile_eq]; rfl))).2.1 (by decide)).trans
      rfl,
    (main_exit demoEnv init ["ascii.go"] false ["ascii.go"] (fun _ => []) rfl
      (by
        intro file hfile
        simp only [List.mem_singleton] at hfile
        subst hfile
        rw [scanFile_eq]; rfl)).2.2 rfl⟩

/-- C9: when the files are listed and every file before one is read and has no scan error:
if that one cannot be read, scanFile fails on it and main ends with status 1 and writes
the read error and nothing else; if its text cannot be tokenized, scanFile fails on it and
main ends with status 1 and writes, and nothing else, the first scan error: the file name
of the position the error is reported at (empty unless a line directive names one), the
line of that position, and the message. In both cases none of the lines collected from the
files before is written and the files after it make no difference. A file that is read and
whose text has no scan error is always scanned to a result. -/
theorem main_fatal (env : Env) (homoglyphs : HomoglyphMap) (args : List String)
    (scanComments : Bool) (before : List String) (file : String) (after : List String)
    (hlist : listFiles env args = .ok (before ++ file :: after))
    (hbefore : ∀ f ∈ before, ∃ src, env.ReadFile f = .ok src ∧
      firstError (env.lex src) = none) :
    (∀ err, env.ReadFile file = .error err →
      scanFile env homoglyphs file scanComments =
        .error { status := 1, stderr := logOutput err } ∧
      main env homoglyphs args scanComments = { status := 1, stderr := logOutput err }) ∧
    (∀ src p msg, env.ReadFile file = .ok src → firstError (env.lex src) = some (p, msg) →
      scanFile env homoglyphs file scanComments =
        .error { status := 1,
                 stderr := logOutput (p.directive.getD "" ++ ":" ++ Itoa p.line ++ ": " ++ msg) } ∧
      main env homoglyphs args scanComments =
        { status := 1,
          stderr := logOutput (p.directive.getD "" ++ ":" ++ Itoa p.line ++ ": " ++ msg) }) ∧
    (∀ f src, env.ReadFile f = .ok src → firstError (env.lex src) = none →
      ∃ found, scanFile env homoglyphs f scanComments = .ok found) := by
  have hbefore' : ∀ f ∈ before,
      ∃ found, scanFile env homoglyphs f scanComments = .ok found := by
    intro f hf
    obtain ⟨src, hr, he⟩ := hbefore f hf
    exact ⟨_, scanFile_ok env homoglyphs f scanComments src hr he⟩
  have hmain : ∀ e, scanFile env homoglyphs file scanComments = .error e →
      main env homoglyphs args scanComments = e := by
    intro e hfail
    unfold main
    rw [hlist]
    simp only [scanFiles_error env homoglyphs scanComments file after e hfail before []
      hbefore']
  refine ⟨?_, ?_, ?_⟩
  · intro err hr
    have hfail : scanFile env homoglyphs file scanComments =
        .error { status := 1, stderr := logOutput err } := by
      rw [scanFile_eq, hr]
      rfl
    exact ⟨hfail, hmain _ hfail⟩
  · intro src p msg hr he
    have hfail : scanFile env homoglyphs file scanComments =
        .error { status := 1,
                 stderr := logOutput (p.directive.getD "" ++ ":" ++ Itoa p.line ++ ": " ++ msg) } := by
      rw [scanFile_eq, hr]
      simp only [he, logFatal, sprintfScanError, File.Position, tokFileOf]
      cases p.directive <;> rfl
    exact ⟨hfail, hmain _ hfail⟩
  · intro f src hr he
    exact ⟨_, scanFile_ok env homoglyphs f scanComments src hr he⟩

set_option maxRecDepth 100000 in
/-- C9 in the small world: code.go has a line; bad.go has a scan error; badline.go has the
same scan error under the line directive `//line bar.go:7`; and a file that does not exist
cannot be read. In each run main writes the error alone. -/
theorem main_fatal_witness :
    scanFile demoEnv init "code.go" false = .ok ["code.go:1:1: vаlue (U+0430 'а')"] ∧
    main demoEnv init ["code.go", "bad.go", "two.go"] false =
      { status := 1, stderr := ":1: illegal character U+0023 '#'\n" } ∧
    main demoEnv init ["code.go", "badline.go", "two.go"] false =
      { status := 1, stderr := "bar.go:7: illegal character U+0023 '#'\n" } ∧
    main demoEnv init ["code.go", "none.go", "two.go"] false =
      { status := 1, stderr := "open none.go: no such file or directory\n" } :=
  ⟨by rw [scanFile_eq]; rfl,
    ((main_fatal demoEnv init ["code.go", "bad.go", "two.go"] false ["code.go"] "bad.go"
      ["two.go"] rfl
      (by
        intro f hf
        simp only [List.mem_singleton] at hf
        subst hf
        exact ⟨codeSrc, rfl, rfl⟩)).2.1 badSrc ⟨1, none, 1, 2⟩
        "illegal character U+0023 '#'" rfl rfl).2.trans rfl,
    ((main_fatal demoEnv init ["code.go", "badline.go", "two.go"] false ["code.go"]
      "badline.go" ["two.go"] rfl
      (by
        intro f hf
        simp only [List.mem_singleton] at hf
        subst hf
        exact ⟨codeSrc, rfl, rfl⟩)).2.1 badLineSrc ⟨17, some "bar.go", 7, 0⟩
        "illegal character U+0023 '#'" rfl rfl).2.trans rfl,
    ((main_fatal demoEnv init ["code.go", "none.go", "two.go"] false ["code.go"] "none.go"
      ["two.go"] rfl
      (by
        intro f hf
        simp only [List.mem_singleton] at hf
        subst hf
        exact ⟨codeSrc, rfl, rfl⟩)).1 "open none.go: no such file or directory" rfl).2.trans
      rfl⟩

set_option maxRecDepth 100000 in
/-- C10: the confusable table has no rune below 0x80, so isHomoglyph is false for every rune
below 0x80, the condition of the scan is equal to isHomoglyph alone for every rune, and
scanFile returns the same as the scan without the threshold guard on every input. -/
theorem init_threshold_guard_redundant :
    (∀ r ∈ table.data, r.toNat ≥ 0x80) ∧
    (∀ r : Char, r.toNat < 0x80 → isHomoglyph init r = false) ∧
    (∀ c : Char, (decide (c.toNat ≥ RuneSelf) && isHomoglyph init c) = isHomoglyph init c) ∧
    (∀ (env : Env) (file : String) (scanComments : Bool),
      scanFile env init file scanComments = scanFileUnguarded env init file scanComments) := by
  have hinit : ∀ r ∈ init, RuneSelf ≤ r.toNat := by decide
  have hfalse : ∀ r : Char, r.toNat < 0x80 → isHomoglyph init r = false := by
    intro r hr
    cases h : isHomoglyph init r with
    | false => rfl
    | true =>
      have hmem : r ∈ init := by simpa [isHomoglyph] using h
      have := hinit r hmem
      unfold RuneSelf at this
      omega
  refine ⟨by decide, hfalse, ?_, ?_⟩
  · intro c
    by_cases hc : c.toNat < 0x80
    · rw [hfalse c hc, Bool.and_false]
    · have : decide (c.toNat ≥ RuneSelf) = true := by
        unfold RuneSelf
        simp only [decide_eq_true_eq]
        omega
      rw [this, Bool.true_and]
  · intro env file scanComments
    exact (scanFileUnguarded_eq_scanFile init hinit env file scanComments).symm

end Glyphcheck
